import Mathlib

/-!
Verification of the sales-target reconciliation backend (`src/backend/server.js`).

The JavaScript code is shallowly embedded: JS strings are modelled as `List Char`
(called `Str`), JS scalar cell values as the inductive `Value` (undefined, null,
string, or number), and JS numbers as `Rat` (spreadsheet cells hold decimal
values; IEEE-754 rounding is out of scope of every claim considered here).
Stateful code (the invoice aggregation loop, the block segmentation loop, the
MongoDB-backed achievement accumulator, the upload request handler) is modelled
as explicit folds over state values.
-/

set_option maxRecDepth 10000

/-- JS strings, modelled as lists of characters. -/
abbrev Str := List Char

/-- A JS scalar value as it can appear in a spreadsheet cell, a parsed row
object field, or a request body field. -/
inductive Value where
  | undefined : Value
  | vNull : Value
  | vStr : Str → Value
  | vNum : Rat → Value
deriving DecidableEq

/-- JS truthiness on `Value`: `undefined`, `null`, `""` and `0` are falsy
(`NaN` is not representable in this model). -/
def truthy : Value → Bool
  | .undefined => false
  | .vNull => false
  | .vStr s => !s.isEmpty
  | .vNum q => !(q = 0 : Bool)

/-- JS `a || b`. -/
def jsOr (a b : Value) : Value := if truthy a then a else b

/-- JS whitespace test on a character (model of the `\s` class and of the
characters removed by `String.prototype.trim`). -/
def jsIsWS (c : Char) : Bool := c.isWhitespace

/-- ASCII lowercase-letter test, by code point. -/
def isLowerAlpha (c : Char) : Bool := 97 ≤ c.toNat && c.toNat ≤ 122

/-- Model of JS `toUpperCase` on one character (ASCII range; other characters
are left unchanged). -/
def upChar (c : Char) : Char :=
  if isLowerAlpha c then Char.ofNat (c.toNat - 32) else c

/-- Model of JS `String.prototype.toUpperCase`. -/
def jsUpper (s : Str) : Str := s.map upChar

/-- Left part of JS `trim`. -/
def trimLeft (s : Str) : Str := s.dropWhile jsIsWS

/-- Right part of JS `trim`. -/
def trimRight (s : Str) : Str := (s.reverse.dropWhile jsIsWS).reverse

/-- Model of JS `String.prototype.trim`. -/
def jsTrim (s : Str) : Str := trimRight (trimLeft s)

/-- Model of JS `String.prototype.startsWith`. -/
def jsStarts (s p : Str) : Bool := s.take p.length = p

/-- Model of JS `String.prototype.includes` (substring test). -/
def strContains (s sub : Str) : Bool :=
  (List.range (s.length + 1)).any (fun i => (s.drop i).take sub.length = sub)

/-- The `.replace(/\*+$/, "")` step of `normalizeInvoiceNo`: remove every
trailing `*`. -/
def stripTrailingStars (s : Str) : Str :=
  (s.reverse.dropWhile (fun c => c = '*')).reverse

/-- `normalizeInvoiceNo` from `server.js` (lines 130-136): empty for falsy
input, otherwise trim, uppercase, and strip trailing `*` characters. -/
def normalizeInvoiceNo (v : Str) : Str :=
  if v.isEmpty then [] else stripTrailingStars (jsUpper (jsTrim v))

example : normalizeInvoiceNo "gi/16909*  ".data = "GI/16909".data := by decide

example : normalizeInvoiceNo "a *".data = "A ".data := by decide

/-! Helper lemmas for the character model. -/

theorem charToNat_ofNat (n : Nat) (h : n.isValidChar) : (Char.ofNat n).toNat = n := by
  simp [Char.ofNat, Char.ofNatAux, Char.toNat, h, UInt32.toNat, BitVec.toNat_ofNatLt]

theorem upChar_idem (c : Char) : upChar (upChar c) = upChar c := by
  unfold upChar
  by_cases h : isLowerAlpha c = true
  · simp only [h, if_true]
    have hlo : 97 ≤ c.toNat ∧ c.toNat ≤ 122 := by simpa [isLowerAlpha] using h
    have hv : (c.toNat - 32).isValidChar := by left; omega
    have ht : (Char.ofNat (c.toNat - 32)).toNat = c.toNat - 32 := charToNat_ofNat _ hv
    have hne : isLowerAlpha (Char.ofNat (c.toNat - 32)) = false := by
      simp [isLowerAlpha, ht]; omega
    simp [hne]
  · simp only [Bool.not_eq_true] at h
    simp [h]

theorem dropWhile_idem {α : Type} (p : α → Bool) (l : List α) :
    (l.dropWhile p).dropWhile p = l.dropWhile p := by
  induction l with
  | nil => rfl
  | cons a t ih =>
    by_cases h : p a = true
    · simpa [List.dropWhile, h] using ih
    · simp [List.dropWhile, h]

theorem stripTrailingStars_idem (l : Str) :
    stripTrailingStars (stripTrailingStars l) = stripTrailingStars l := by
  simp [stripTrailingStars, dropWhile_idem]

theorem mem_stripTrailingStars {c : Char} {l : Str} (h : c ∈ stripTrailingStars l) :
    c ∈ l := by
  simp only [stripTrailingStars, List.mem_reverse] at h
  have := (List.dropWhile_sublist (l := l.reverse) (p := fun c => c = '*')).subset h
  simpa using this

theorem jsUpper_fix_of_mem {l : Str} (h : ∀ c ∈ l, upChar c = c) : jsUpper l = l := by
  induction l with
  | nil => rfl
  | cons a t ih =>
    simp only [jsUpper, List.map_cons] at *
    rw [h a (by simp), ih (fun c hc => h c (by simp [hc]))]

theorem jsUpper_normalizeInvoiceNo (v : Str) :
    jsUpper (normalizeInvoiceNo v) = normalizeInvoiceNo v := by
  unfold normalizeInvoiceNo
  by_cases h : v.isEmpty
  · simp [h, jsUpper]
  · simp only [h, if_false]
    apply jsUpper_fix_of_mem
    intro c hc
    have hc' : c ∈ jsUpper (jsTrim v) := mem_stripTrailingStars hc
    obtain ⟨a, _, rfl⟩ := List.mem_map.mp hc'
    exact upChar_idem a

theorem stripTrailingStars_normalizeInvoiceNo (v : Str) :
    stripTrailingStars (normalizeInvoiceNo v) = normalizeInvoiceNo v := by
  unfold normalizeInvoiceNo
  by_cases h : v.isEmpty
  · simp [h, stripTrailingStars]
  · simp [h, stripTrailingStars_idem]

/-- C3 counterexample input: for `"a *"`, stripping the trailing `*` exposes a
trailing space, so a second application trims further. -/
theorem normalizeInvoiceNo_not_idem :
    normalizeInvoiceNo (normalizeInvoiceNo "a *".data) ≠ normalizeInvoiceNo "a *".data := by
  decide

/-- C3 (amended): `normalizeInvoiceNo` maps `"gi/16909*  "` to `"GI/16909"`,
and applying it twice agrees with applying it once for every input whose
once-normalized value is unchanged by trimming (that is, whenever stripping the
trailing `*` run did not expose trailing whitespace). -/
theorem normalizeInvoiceNo_spec :
    normalizeInvoiceNo "gi/16909*  ".data = "GI/16909".data ∧
    ∀ v : Str, jsTrim (normalizeInvoiceNo v) = normalizeInvoiceNo v →
      normalizeInvoiceNo (normalizeInvoiceNo v) = normalizeInvoiceNo v := by
  refine ⟨by decide, ?_⟩
  intro v h
  by_cases hw : (normalizeInvoiceNo v).isEmpty
  · rw [List.isEmpty_iff] at hw
    rw [hw]
    decide
  · conv_lhs => rw [normalizeInvoiceNo, if_neg (by simpa using hw)]
    rw [h, jsUpper_normalizeInvoiceNo, stripTrailingStars_normalizeInvoiceNo]

/-- C3 witness: the hypothesis of the amended idempotence statement holds at
the spec's own example input, and the conclusion follows from the theorem. -/
theorem normalizeInvoiceNo_spec_witness :
    jsTrim (normalizeInvoiceNo "gi/16909*  ".data) = normalizeInvoiceNo "gi/16909*  ".data ∧
    normalizeInvoiceNo (normalizeInvoiceNo "gi/16909*  ".data) = normalizeInvoiceNo "gi/16909*  ".data :=
  ⟨by decide, normalizeInvoiceNo_spec.2 _ (by decide)⟩

/-! The cell-to-number conversion `num` and its model of JS `Number(...)`. -/

/-- Numeric value of a digit character. -/
def digVal (c : Char) : Nat := c.toNat - 48

/-- Value of a digit string, most significant first. -/
def natOfDigits (l : Str) : Nat := l.foldl (fun a c => a * 10 + digVal c) 0

/-- Parse a non-empty all-digit string. -/
def parseNat (l : Str) : Option Nat :=
  if l.isEmpty ∨ ¬ l.all Char.isDigit then none else some (natOfDigits l)

/-- Parse the (optionally signed) exponent part of a decimal literal. -/
def parseExp (l : Str) : Option Int :=
  match l with
  | '+' :: r => (parseNat r).map Int.ofNat
  | '-' :: r => (parseNat r).map (fun n => -(n : Int))
  | _ => (parseNat l).map Int.ofNat

/-- Parse an unsigned decimal mantissa: digits, optionally with one `.`;
`"1."` and `".5"` are accepted, `"."` alone is not (as in JS `Number`). -/
def parseMantissa (l : Str) : Option Rat :=
  let ip := l.takeWhile (fun c => ¬ c = '.')
  let rest := l.dropWhile (fun c => ¬ c = '.')
  match rest with
  | [] => (parseNat ip).map (fun n => (n : Rat))
  | _ :: frac =>
    if frac.contains '.' then none
    else if ip.isEmpty ∧ frac.isEmpty then none
    else if ip.all Char.isDigit ∧ frac.all Char.isDigit then
      some ((natOfDigits ip : Rat) + (natOfDigits frac : Rat) / (10 ^ frac.length))
    else none

/-- Parse an unsigned decimal literal with optional `e`/`E` exponent. -/
def parseUnsigned (l : Str) : Option Rat :=
  let m := l.takeWhile (fun c => ¬ (c = 'e' ∨ c = 'E'))
  let rest := l.dropWhile (fun c => ¬ (c = 'e' ∨ c = 'E'))
  match rest with
  | [] => parseMantissa m
  | _ :: ex =>
    match parseMantissa m, parseExp ex with
    | some mv, some e => some (mv * (10 : Rat) ^ e)
    | _, _ => none

/-- Model of JS `Number(string)` restricted to decimal numeric literals:
the whitespace-trimmed string is parsed as an optionally signed decimal
literal; the empty (or all-whitespace) string converts to `0`; anything
else (`none`) stands for `NaN`. -/
def jsNumberOfString (l : Str) : Option Rat :=
  let t := jsTrim l
  if t.isEmpty then some 0
  else
    match t with
    | '+' :: r => parseUnsigned r
    | '-' :: r => (parseUnsigned r).map Neg.neg
    | _ => parseUnsigned t

/-- Count how many times `p` divides `n`; the fuel argument (any value at
least `n`) only forces termination. -/
def countFactor : Nat → Nat → Nat → Nat
  | 0, _, _ => 0
  | fuel + 1, p, n => if 2 ≤ p ∧ 0 < n ∧ n % p = 0 then countFactor fuel p (n / p) + 1 else 0

/-- Decimal digit characters of a natural number, most significant first
(fuel-bounded; any fuel at least `n` gives all digits). -/
def decDigitsAux : Nat → Nat → Str
  | 0, _ => []
  | fuel + 1, n => if n = 0 then [] else decDigitsAux fuel (n / 10) ++ [Char.ofNat (48 + n % 10)]

/-- Decimal digit string of a natural number. -/
def decDigits (m : Nat) : Str := if m = 0 then ['0'] else decDigitsAux m m

/-- Model of JS number-to-string conversion. A rational whose reduced
denominator is of the form `2^a * 5^b` has a finite decimal expansion and is
rendered exactly as JS renders the corresponding number (sign, integer part,
`.`, fraction part without trailing zeros; integers without a point). Every
number a JS program can hold is a binary fraction, so every reachable `vNum`
takes this path; rationals with any other prime in the denominator have no JS
counterpart and get a `num/den` placeholder rendering. -/
def ratToStr (q : Rat) : Str :=
  let sign : Str := if q.num < 0 then ['-'] else []
  if q.den = 1 then sign ++ decDigits q.num.natAbs
  else
    let a := countFactor q.den 2 q.den
    let b := countFactor q.den 5 q.den
    if 2 ^ a * 5 ^ b = q.den then
      let k := max a b
      let scaled := q.num.natAbs * (10 ^ k / q.den)
      let ds := List.replicate (k + 1 - (decDigits scaled).length) '0' ++ decDigits scaled
      sign ++ ds.take (ds.length - k) ++ '.' :: ds.drop (ds.length - k)
    else sign ++ decDigits q.num.natAbs ++ '/' :: decDigits q.den

example : ratToStr (Rat.mk' 3 2 (by decide) (by decide)) = "1.5".data := by decide

example : ratToStr (Rat.mk' (-30864) 25 (by decide) (by decide)) = "-1234.56".data := by decide

example : ratToStr (Rat.mk' 1 100 (by decide) (by decide)) = "0.01".data := by decide

example : ratToStr (Rat.mk' (-7) 1 (by decide) (by decide)) = "-7".data := by decide

/-- Model of JS `String(v)`. -/
def jsToString : Value → Str
  | .undefined => "undefined".data
  | .vNull => "null".data
  | .vStr s => s
  | .vNum q => ratToStr q

/-- The `.replace(/,/g, "")` step of `num`: remove every comma. -/
def stripCommas (s : Str) : Str := s.filter (fun c => ¬ c = ',')

/-- `num` from `server.js` (lines 118-122): `0` for `undefined`/`null`/`""`,
otherwise `Number(String(val).replace(/,/g, "").trim())` with `NaN` mapped
to `0`. -/
def num (val : Value) : Rat :=
  if val = .undefined ∨ val = .vNull ∨ val = .vStr [] then 0
  else
    match jsNumberOfString (jsTrim (stripCommas (jsToString val))) with
    | none => 0
    | some q => q

example : jsNumberOfString "7".data = some 7 := by decide
example : jsNumberOfString "-12".data = some (-12) := by decide
example : num (.vStr "abc".data) = 0 := by decide
example : num (.vStr "1,234".data) = 1234 := by decide

/-! The achievement accumulator `upsertAchievement` (`server.js` lines 267-298)
and the `/api/upload-sales` handler (lines 902-946). The MongoDB collection of
`MonthlyAchievement` documents is modelled as a list of records in insertion
order; `findOne` is first-match lookup and `save` updates the found document
in place. -/

/-- A stored `MonthlyAchievement` document. `year`/`month` are JS numbers. -/
structure AchRec where
  salesperson : Str
  year : Rat
  month : Rat
  ownAchievement : Rat
  otherAchievement : Rat
  totalAchievement : Rat
deriving DecidableEq

/-- The `findOne` filter `{salesperson, year, month}`. -/
def achKeyMatches (sp : Str) (y m : Rat) (r : AchRec) : Bool :=
  decide (r.salesperson = sp) && decide (r.year = y) && decide (r.month = m)

/-- `MonthlyAchievement.findOne({salesperson, year, month})`. -/
def findAch (l : List AchRec) (sp : Str) (y m : Rat) : Option AchRec :=
  l.find? (achKeyMatches sp y m)

/-- Update the first record satisfying `p` in place (Mongo `save` on the
document returned by `findOne`, under the collection's unique key index). -/
def updFirst {α : Type} (p : α → Bool) (f : α → α) : List α → List α
  | [] => []
  | r :: t => if p r then f r :: t else r :: updFirst p f t

/-- The update performed by `upsertAchievement` on an existing document:
deltas are added to the stored own/other/total values. -/
def applyDeltas (ownDelta otherDelta : Rat) (r : AchRec) : AchRec :=
  { r with
    ownAchievement := r.ownAchievement + ownDelta
    otherAchievement := r.otherAchievement + otherDelta
    totalAchievement := r.totalAchievement + (ownDelta + otherDelta) }

/-- `upsertAchievement` from `server.js` (lines 267-298). -/
def upsertAchievement (sp : Str) (y m ownDelta otherDelta : Rat)
    (l : List AchRec) : List AchRec :=
  match findAch l sp y m with
  | some _ => updFirst (achKeyMatches sp y m) (applyDeltas ownDelta otherDelta) l
  | none => l ++ [⟨sp, y, m, ownDelta, otherDelta, ownDelta + otherDelta⟩]

/-- One call of the accumulator, as data: the key and the two deltas. -/
structure MergeOp where
  sp : Str
  year : Rat
  month : Rat
  ownDelta : Rat
  otherDelta : Rat

/-- A sequence of accumulator calls applied to a stored collection. -/
def applyMerges (ops : List MergeOp) (l : List AchRec) : List AchRec :=
  ops.foldl (fun acc op =>
    upsertAchievement op.sp op.year op.month op.ownDelta op.otherDelta acc) l

theorem find?_updFirst {α : Type} (p : α → Bool) (f : α → α) (l : List α) (r : α)
    (hpf : ∀ x, p (f x) = p x) (h : l.find? p = some r) :
    (updFirst p f l).find? p = some (f r) := by
  induction l with
  | nil => simp at h
  | cons a t ih =>
    by_cases hp : p a = true
    · rw [List.find?_cons_of_pos _ hp] at h
      injection h with h
      subst h
      rw [updFirst, if_pos hp]
      exact List.find?_cons_of_pos _ ((hpf a).trans hp)
    · rw [List.find?_cons_of_neg _ (by simpa using hp)] at h
      rw [updFirst, if_neg hp]
      rw [List.find?_cons_of_neg _ (by simpa using hp)]
      exact ih h

theorem find?_append_of_none {α : Type} (p : α → Bool) (l₁ l₂ : List α)
    (h : l₁.find? p = none) : (l₁ ++ l₂).find? p = l₂.find? p := by
  induction l₁ with
  | nil => simp
  | cons a t ih =>
    by_cases hp : p a = true
    · rw [List.find?_cons_of_pos _ hp] at h; exact absurd h (by simp)
    · rw [List.find?_cons_of_neg _ (by simpa using hp)] at h
      rw [List.cons_append, List.find?_cons_of_neg _ (by simpa using hp)]
      exact ih h

theorem achKeyMatches_applyDeltas (sp : Str) (y m d1 d2 : Rat) (x : AchRec) :
    achKeyMatches sp y m (applyDeltas d1 d2 x) = achKeyMatches sp y m x := by
  simp [achKeyMatches, applyDeltas]

theorem achKeyMatches_self (sp : Str) (y m d1 d2 : Rat) :
    achKeyMatches sp y m ⟨sp, y, m, d1, d2, d1 + d2⟩ = true := by
  simp [achKeyMatches]

/-- C5: `upsertAchievement` is additive. When a record for the key exists, the
deltas and their sum are added to the stored own/other/total fields; when none
exists, a record is created with the deltas as initial values; consequently,
merging the same deltas twice starting from a state with no record for the key
yields exactly double the totals of merging once. -/
theorem upsertAchievement_spec (l : List AchRec) (sp : Str) (y m d1 d2 : Rat) :
    (∀ r, findAch l sp y m = some r →
      findAch (upsertAchievement sp y m d1 d2 l) sp y m = some (applyDeltas d1 d2 r)) ∧
    (findAch l sp y m = none →
      findAch (upsertAchievement sp y m d1 d2 l) sp y m = some ⟨sp, y, m, d1, d2, d1 + d2⟩) ∧
    (findAch l sp y m = none →
      findAch (upsertAchievement sp y m d1 d2 (upsertAchievement sp y m d1 d2 l)) sp y m =
        some ⟨sp, y, m, 2 * d1, 2 * d2, 2 * (d1 + d2)⟩) := by
  have hnone : findAch l sp y m = none →
      findAch (upsertAchievement sp y m d1 d2 l) sp y m = some ⟨sp, y, m, d1, d2, d1 + d2⟩ := by
    intro h
    rw [upsertAchievement, h, findAch,
      find?_append_of_none _ _ _ h,
      List.find?_cons_of_pos _ (achKeyMatches_self sp y m d1 d2)]
  refine ⟨?_, hnone, ?_⟩
  · intro r h
    rw [upsertAchievement, h]
    exact find?_updFirst _ _ _ _ (achKeyMatches_applyDeltas sp y m d1 d2) h
  · intro h
    have h1 := hnone h
    have h2 : upsertAchievement sp y m d1 d2 (upsertAchievement sp y m d1 d2 l) =
        updFirst (achKeyMatches sp y m) (applyDeltas d1 d2)
          (upsertAchievement sp y m d1 d2 l) := by
      rw [upsertAchievement, h1]
    have h3 := find?_updFirst (achKeyMatches sp y m) (applyDeltas d1 d2)
      (upsertAchievement sp y m d1 d2 l) _ (achKeyMatches_applyDeltas sp y m d1 d2) h1
    rw [findAch, h2, h3]
    have h4 : applyDeltas d1 d2 (⟨sp, y, m, d1, d2, d1 + d2⟩ : AchRec) =
        ⟨sp, y, m, 2 * d1, 2 * d2, 2 * (d1 + d2)⟩ := by
      simp only [applyDeltas, AchRec.mk.injEq, true_and]
      refine ⟨by ring, by ring, by ring⟩
    rw [h4]

/-- C5 witness: both branches of the accumulator contract, and the doubling
consequence, instantiated on explicit records and deltas. -/
theorem upsertAchievement_spec_witness :
    (findAch [(⟨"A".data, 2024, 5, 1, 2, 3⟩ : AchRec)] "A".data 2024 5 =
        some ⟨"A".data, 2024, 5, 1, 2, 3⟩ ∧
      findAch (upsertAchievement "A".data 2024 5 3 4 [⟨"A".data, 2024, 5, 1, 2, 3⟩])
          "A".data 2024 5 = some (applyDeltas 3 4 ⟨"A".data, 2024, 5, 1, 2, 3⟩)) ∧
    (findAch ([] : List AchRec) "B".data 2024 5 = none ∧
      findAch (upsertAchievement "B".data 2024 5 3 4 []) "B".data 2024 5 =
        some ⟨"B".data, 2024, 5, 3, 4, 3 + 4⟩ ∧
      findAch (upsertAchievement "B".data 2024 5 3 4 (upsertAchievement "B".data 2024 5 3 4 []))
          "B".data 2024 5 = some ⟨"B".data, 2024, 5, 2 * 3, 2 * 4, 2 * (3 + 4)⟩) :=
  ⟨⟨by decide, (upsertAchievement_spec [⟨"A".data, 2024, 5, 1, 2, 3⟩] "A".data 2024 5 3 4).1
      _ (by decide)⟩,
   ⟨by decide, (upsertAchievement_spec [] "B".data 2024 5 3 4).2.1 (by decide),
      (upsertAchievement_spec [] "B".data 2024 5 3 4).2.2 (by decide)⟩⟩

theorem mem_updFirst {α : Type} (p : α → Bool) (f : α → α) (l : List α) (r : α)
    (h : r ∈ updFirst p f l) : r ∈ l ∨ ∃ s ∈ l, r = f s := by
  induction l with
  | nil => simp [updFirst] at h
  | cons a t ih =>
    by_cases hp : p a = true
    · rw [updFirst, if_pos hp] at h
      rcases List.mem_cons.mp h with h | h
      · exact Or.inr ⟨a, by simp, h⟩
      · exact Or.inl (by simp [h])
    · rw [updFirst, if_neg hp] at h
      rcases List.mem_cons.mp h with h | h
      · exact Or.inl (by simp [h])
      · rcases ih h with h | ⟨s, hs, hr⟩
        · exact Or.inl (by simp [h])
        · exact Or.inr ⟨s, by simp [hs], hr⟩

theorem upsertAchievement_invariant_step (sp : Str) (y m d1 d2 : Rat)
    (l : List AchRec)
    (hl : ∀ r ∈ l, r.totalAchievement = r.ownAchievement + r.otherAchievement) :
    ∀ r ∈ upsertAchievement sp y m d1 d2 l,
      r.totalAchievement = r.ownAchievement + r.otherAchievement := by
  intro r hr
  rw [upsertAchievement] at hr
  cases hfind : findAch l sp y m with
  | some r0 =>
    rw [hfind] at hr
    rcases mem_updFirst _ _ _ _ hr with h | ⟨s, hs, hrs⟩
    · exact hl r h
    · subst hrs
      simp only [applyDeltas]
      rw [hl s hs]
      ring
  | none =>
    rw [hfind] at hr
    rcases List.mem_append.mp hr with h | h
    · exact hl r h
    · simp only [List.mem_singleton] at h
      subst h
      rfl

theorem applyMerges_invariant (ops : List MergeOp) (l : List AchRec)
    (hl : ∀ r ∈ l, r.totalAchievement = r.ownAchievement + r.otherAchievement) :
    ∀ r ∈ applyMerges ops l,
      r.totalAchievement = r.ownAchievement + r.otherAchievement := by
  induction ops generalizing l with
  | nil => simpa [applyMerges] using hl
  | cons op rest ih =>
    intro r hr
    rw [applyMerges, List.foldl_cons] at hr
    exact ih _ (upsertAchievement_invariant_step _ _ _ _ _ _ hl) r hr

/-- C10: any record in a collection produced from the empty collection by a
sequence of `upsertAchievement` calls satisfies
`totalAchievement = ownAchievement + otherAchievement`. -/
theorem achievement_total_invariant (ops : List MergeOp) (r : AchRec)
    (h : r ∈ applyMerges ops []) :
    r.totalAchievement = r.ownAchievement + r.otherAchievement :=
  applyMerges_invariant ops [] (by simp) r h

/-- C10 witness: the invariant at the record produced by one concrete merge. -/
theorem achievement_total_invariant_witness :
    (⟨"A".data, 2024, 5, 3, 4, 3 + 4⟩ : AchRec) ∈
        applyMerges [⟨"A".data, 2024, 5, 3, 4⟩] [] ∧
    (⟨"A".data, 2024, 5, 3, 4, 3 + 4⟩ : AchRec).totalAchievement =
      (⟨"A".data, 2024, 5, 3, 4, 3 + 4⟩ : AchRec).ownAchievement +
        (⟨"A".data, 2024, 5, 3, 4, 3 + 4⟩ : AchRec).otherAchievement :=
  ⟨by simp [applyMerges, upsertAchievement, findAch],
   achievement_total_invariant [⟨"A".data, 2024, 5, 3, 4⟩] _
     (by simp [applyMerges, upsertAchievement, findAch])⟩

/-! The `/api/upload-sales` request handler (`server.js` lines 894-946). The
parts of the handler that parse spreadsheets and merge achievements are
abstracted as an opaque `process` argument; the claim under study only
concerns the rejection paths, which are modelled exactly. -/

/-- An `/api/upload-sales` request: the `year`/`month` body fields and
whether a sales (`salesFile`/`file`) and a returns file were attached. -/
structure UploadReq where
  year : Value
  month : Value
  hasSalesFile : Bool
  hasReturnsFile : Bool

/-- The handler's HTTP outcome. -/
inductive UploadResp where
  | badRequest : Str → UploadResp
  | ok : Str → UploadResp
deriving DecidableEq

/-- Model of JS `Number(v)`: `none` stands for `NaN`. -/
def jsNumber : Value → Option Rat
  | .undefined => none
  | .vNull => some 0
  | .vStr s => jsNumberOfString s
  | .vNum q => some q

/-- Mongo equality test of a stored number against `Number(year)` /
`Number(month)`; `NaN` (`none`) matches nothing. -/
def matchesNum (x : Option Rat) (r : Rat) : Bool :=
  match x with
  | some q => decide (r = q)
  | none => false

/-- `MonthlyAchievement.deleteMany({year: yearNum, month: monthNum})`. -/
def clearPeriod (y m : Option Rat) (l : List AchRec) : List AchRec :=
  l.filter (fun r => ¬ (matchesNum y r.year && matchesNum m r.month))

/-- The `/api/upload-sales` handler: reject when `year`/`month` are falsy;
otherwise clear the period's achievements, then reject when no sales file was
uploaded, else run the processing pipeline (`process`) on the cleared state. -/
def uploadSales (process : Option Rat → Option Rat → List AchRec → List AchRec)
    (req : UploadReq) (st : List AchRec) : UploadResp × List AchRec :=
  if ¬ truthy req.year ∨ ¬ truthy req.month then
    (.badRequest "year and month are required".data, st)
  else
    let yearNum := jsNumber req.year
    let monthNum := jsNumber req.month
    let st1 := clearPeriod yearNum monthNum st
    if ¬ req.hasSalesFile then
      (.badRequest "Sales Excel file is required".data, st1)
    else
      (.ok "Sales processed successfully (returns used to skip invoices)".data,
        process yearNum monthNum st1)

/-- C4 counterexample: a request with `year`/`month` present but no sales file
is rejected, yet the stored achievement record for the period has been deleted
by the time of the rejection — the state is not left unmodified. -/
theorem uploadSales_deletes_on_missing_file :
    (uploadSales (fun _ _ s => s)
        ⟨.vStr "2024".data, .vStr "5".data, false, false⟩
        [⟨"A".data, 2024, 5, 1, 2, 3⟩]).1 =
      .badRequest "Sales Excel file is required".data ∧
    (uploadSales (fun _ _ s => s)
        ⟨.vStr "2024".data, .vStr "5".data, false, false⟩
        [⟨"A".data, 2024, 5, 1, 2, 3⟩]).2 ≠
      [⟨"A".data, 2024, 5, 1, 2, 3⟩] := by
  constructor
  · decide
  · decide

/-- C4 (amended): a request missing `year` or `month` is rejected before any
stored state is touched; a request with `year` and `month` but no sales file
is also rejected, but only after the period's `MonthlyAchievement` records
have been deleted. -/
theorem uploadSales_reject_spec
    (process : Option Rat → Option Rat → List AchRec → List AchRec)
    (req : UploadReq) (st : List AchRec) :
    (¬ truthy req.year ∨ ¬ truthy req.month →
      uploadSales process req st = (.badRequest "year and month are required".data, st)) ∧
    (truthy req.year → truthy req.month → req.hasSalesFile = false →
      uploadSales process req st =
        (.badRequest "Sales Excel file is required".data,
          clearPeriod (jsNumber req.year) (jsNumber req.month) st)) := by
  constructor
  · intro h
    rw [uploadSales, if_pos h]
  · intro hy hm hf
    rw [uploadSales, if_neg (by simp [hy, hm])]
    simp only [hf]
    rw [if_pos (by simp)]

/-- C4 witness: both rejection paths of the amended statement at concrete
requests and a concrete stored state. -/
theorem uploadSales_reject_spec_witness :
    ((¬ truthy (Value.undefined) ∨ ¬ truthy (.vStr "5".data)) ∧
      uploadSales (fun _ _ s => s) ⟨.undefined, .vStr "5".data, true, false⟩
          [⟨"A".data, 2024, 5, 1, 2, 3⟩] =
        (.badRequest "year and month are required".data, [⟨"A".data, 2024, 5, 1, 2, 3⟩])) ∧
    (truthy (Value.vStr "2024".data) ∧ truthy (Value.vStr "5".data) ∧
      uploadSales (fun _ _ s => s) ⟨.vStr "2024".data, .vStr "5".data, false, false⟩
          [⟨"A".data, 2024, 5, 1, 2, 3⟩] =
        (.badRequest "Sales Excel file is required".data,
          clearPeriod (jsNumber (.vStr "2024".data)) (jsNumber (.vStr "5".data))
            [⟨"A".data, 2024, 5, 1, 2, 3⟩])) :=
  ⟨⟨by decide,
    (uploadSales_reject_spec (fun _ _ s => s) ⟨.undefined, .vStr "5".data, true, false⟩
      [⟨"A".data, 2024, 5, 1, 2, 3⟩]).1 (by decide)⟩,
   ⟨by decide, by decide,
    (uploadSales_reject_spec (fun _ _ s => s) ⟨.vStr "2024".data, .vStr "5".data, false, false⟩
      [⟨"A".data, 2024, 5, 1, 2, 3⟩]).2 (by decide) (by decide) (by decide)⟩⟩

/-! C8: total behaviour of `num`. -/

theorem jsIsWS_ne_comma {c : Char} (h : jsIsWS c = true) : ¬ c = ',' := by
  intro hc
  subst hc
  simp [jsIsWS, Char.isWhitespace] at h

theorem jsTrim_all_ws {s : Str} (h : s.all jsIsWS) : jsTrim s = [] := by
  have h' : ∀ c ∈ s, jsIsWS c = true := by simpa [List.all_eq_true] using h
  have h1 : trimLeft s = [] := by
    simp only [trimLeft, List.dropWhile_eq_nil_iff]
    intro c hc
    exact h' c hc
  simp [jsTrim, h1, trimRight]

/-- C8: `num` never raises (it is a total function into the rationals in this
model), returns exactly `0` on `undefined`, `null`, the empty string and
whitespace-only strings, returns `0` whenever the comma-stripped trimmed text
does not parse as a decimal literal (`NaN`), and returns the parsed decimal
whenever it does parse. -/
theorem num_spec :
    num .undefined = 0 ∧ num .vNull = 0 ∧ num (.vStr []) = 0 ∧
    (∀ s : Str, s.all jsIsWS → num (.vStr s) = 0) ∧
    (∀ v : Value, jsNumberOfString (jsTrim (stripCommas (jsToString v))) = none → num v = 0) ∧
    (∀ v : Value, ∀ q : Rat,
      jsNumberOfString (jsTrim (stripCommas (jsToString v))) = some q → num v = q) := by
  refine ⟨by decide, by decide, by decide, ?_, ?_, ?_⟩
  · intro s hws
    by_cases hnil : s = []
    · subst hnil; decide
    · have hsc : stripCommas s = s := by
        rw [stripCommas, List.filter_eq_self]
        intro c hc
        have h' : ∀ c ∈ s, jsIsWS c = true := by simpa [List.all_eq_true] using hws
        simpa using jsIsWS_ne_comma (h' c hc)
      have : num (.vStr s) =
          match jsNumberOfString (jsTrim (stripCommas (jsToString (.vStr s)))) with
          | none => 0
          | some q => q := by
        rw [num, if_neg (by simp [hnil])]
      rw [this]
      simp only [jsToString, hsc, jsTrim_all_ws hws]
      decide
  · intro v h
    by_cases hb : v = .undefined ∨ v = .vNull ∨ v = .vStr []
    · rw [num, if_pos hb]
    · rw [num, if_neg hb, h]
  · intro v q h
    by_cases hb : v = .undefined ∨ v = .vNull ∨ v = .vStr []
    · rcases hb with hb | hb | hb <;> subst hb
      · rw [show jsNumberOfString (jsTrim (stripCommas (jsToString Value.undefined))) = none from
          by decide] at h
        exact absurd h (by simp)
      · rw [show jsNumberOfString (jsTrim (stripCommas (jsToString Value.vNull))) = none from
          by decide] at h
        exact absurd h (by simp)
      · have : q = 0 := by
          have h0 : jsNumberOfString (jsTrim (stripCommas (jsToString (Value.vStr [])))) =
              some 0 := by decide
          rw [h0] at h
          injection h with h
          exact h.symm
        rw [this]
        decide
    · rw [num, if_neg hb, h]

theorem vNum_three_halves_parses :
    jsNumberOfString (jsTrim (stripCommas (jsToString (Value.vNum (3 / 2 : Rat))))) =
      some (3 / 2 : Rat) := by
  have hq : (3 / 2 : Rat) = Rat.mk' 3 2 (by decide) (by decide) := by
    rw [Rat.mk'_eq_divInt, Rat.divInt_eq_div]
    norm_num
  rw [hq]
  have hstr : jsTrim (stripCommas (jsToString
      (Value.vNum (Rat.mk' 3 2 (by decide) (by decide))))) = "1.5".data := by decide
  rw [hstr]
  have hp : jsNumberOfString "1.5".data =
      some ((natOfDigits "1".data : Rat) +
        (natOfDigits "5".data : Rat) / 10 ^ (("5".data).length)) := rfl
  rw [hp]
  congr 1
  rw [show natOfDigits "1".data = 1 from by decide,
    show natOfDigits "5".data = 5 from by decide,
    show ("5".data).length = 1 from by decide,
    Rat.mk'_eq_divInt, Rat.divInt_eq_div]
  norm_num

/-- C8 witness: the whitespace branch at `" "`, the parse-failure branch at
`"abc"`, and the parse-success branch at the integer cell `"1,234"` and at
the non-integral numeric cell `1.5` (JS renders it `"1.5"`, which parses
back to the same value). -/
theorem num_spec_witness :
    ((" ".data : Str).all jsIsWS ∧ num (.vStr " ".data) = 0) ∧
    (jsNumberOfString (jsTrim (stripCommas (jsToString (.vStr "abc".data)))) = none ∧
      num (.vStr "abc".data) = 0) ∧
    (jsNumberOfString (jsTrim (stripCommas (jsToString (.vStr "1,234".data)))) = some 1234 ∧
      num (.vStr "1,234".data) = 1234) ∧
    (jsNumberOfString (jsTrim (stripCommas (jsToString (.vNum (3 / 2 : Rat))))) =
        some (3 / 2 : Rat) ∧
      num (.vNum (3 / 2 : Rat)) = (3 / 2 : Rat)) :=
  ⟨⟨by decide, num_spec.2.2.2.1 " ".data (by decide)⟩,
   ⟨by decide, num_spec.2.2.2.2.1 (.vStr "abc".data) (by decide)⟩,
   ⟨by decide, num_spec.2.2.2.2.2 (.vStr "1,234".data) 1234 (by decide)⟩,
   ⟨vNum_three_halves_parses,
    num_spec.2.2.2.2.2 (.vNum (3 / 2 : Rat)) (3 / 2 : Rat) vNum_three_halves_parses⟩⟩

/-! The invoice aggregation loop of `processRowsForSalesperson`
(`server.js` lines 341-433). A parsed row object is an association list from
column label to cell value (JS object: insertion order, later assignment
overwrites in place); the `invoices` JS `Map` is an association list in
insertion order with in-place update. -/

/-- A parsed row object, column label to cell value. -/
abbrev RawRow := List (Str × Value)

/-- JS property read `row[k]`: `undefined` when the key is absent. -/
def getField (r : RawRow) (k : Str) : Value :=
  match r.find? (fun p => decide (p.1 = k)) with
  | some p => p.2
  | none => .undefined

/-- One line item of an invoice. -/
structure Item where
  model : Value
  brand : Value
  netAmount : Rat
deriving DecidableEq

/-- An aggregated invoice. -/
structure Invoice where
  invoiceNo : Str
  customer : Value
  netInvoice : Rat
  amountRealised : Rat
  invoiceValue : Rat
  ccCharges : Rat
  negRoundOff : Rat
  posRoundOff : Rat
  cashDiscount : Rat
  items : List Item
deriving DecidableEq

/-- The invoice-number cell of a row, resolved through the alias chain
`Invoice No. || Invoice No || INVOICE NO || Invoice || Inv No`. -/
def invNoCell (row : RawRow) : Value :=
  jsOr (getField row "Invoice No.".data) (jsOr (getField row "Invoice No".data)
    (jsOr (getField row "INVOICE NO".data) (jsOr (getField row "Invoice".data)
      (getField row "Inv No".data))))

/-- `invNoRaw`: the trimmed invoice-number text of a row, `""` when the cell
is falsy. -/
def rowRawInvNo (row : RawRow) : Str :=
  if truthy (invNoCell row) then jsTrim (jsToString (invNoCell row)) else []

/-- Candidate cell values for each invoice-level monetary field. -/
def candNetInvoice (row : RawRow) : Rat :=
  num (jsOr (getField row "Net Invoice".data) (getField row "Net Inv".data))

def candAmountRealised (row : RawRow) : Rat :=
  num (jsOr (getField row "Amount Realised".data) (getField row "Amt Realised".data))

def candInvoiceValue (row : RawRow) : Rat :=
  num (jsOr (getField row "Invoice Value".data) (getField row "Inv Value".data))

def candCcCharges (row : RawRow) : Rat :=
  num (getField row "(+) CREDIT CARD CHARGES".data)

def candNegRoundOff (row : RawRow) : Rat :=
  num (getField row "(-) Round Off".data)

def candPosRoundOff (row : RawRow) : Rat :=
  num (getField row "(+) Round Off".data)

def candCashDiscount (row : RawRow) : Rat :=
  num (getField row "(-) CASH DISCOUNT".data)

/-- The customer cell, resolved through its alias chain, defaulting to `""`. -/
def rowCustomer (row : RawRow) : Value :=
  jsOr (getField row "Customer".data) (jsOr (getField row "Financier/Customer".data)
    (jsOr (getField row "Financier / Customer".data)
      (jsOr (getField row "Party".data) (.vStr []))))

/-- The line item appended to the invoice for each row. -/
def rowItem (row : RawRow) : Item :=
  { model := jsOr (getField row "Item/Model".data) (jsOr (getField row "Item".data) (.vStr []))
    brand := jsOr (getField row "Brand".data) (.vStr [])
    netAmount := num (jsOr (getField row "Net Amount".data) (getField row "Net Amt".data)) }

/-- The invoice created on first encountering invoice number `k`, from its
first row (the creation block plus the unconditional item push). -/
def mkInvoice (k : Str) (row : RawRow) : Invoice :=
  { invoiceNo := k
    customer := rowCustomer row
    netInvoice := candNetInvoice row
    amountRealised := candAmountRealised row
    invoiceValue := candInvoiceValue row
    ccCharges := candCcCharges row
    negRoundOff := candNegRoundOff row
    posRoundOff := candPosRoundOff row
    cashDiscount := candCashDiscount row
    items := [rowItem row] }

/-- `if (!inv.field && candidate) inv.field = candidate`. -/
def updField (cur cand : Rat) : Rat := if cur = 0 ∧ ¬ cand = 0 then cand else cur

/-- The update applied to an existing invoice by a subsequent row (each
monetary field filled only while still `0`, plus the item push). -/
def updInvoice (inv : Invoice) (row : RawRow) : Invoice :=
  { inv with
    invoiceValue := updField inv.invoiceValue (candInvoiceValue row)
    ccCharges := updField inv.ccCharges (candCcCharges row)
    negRoundOff := updField inv.negRoundOff (candNegRoundOff row)
    posRoundOff := updField inv.posRoundOff (candPosRoundOff row)
    cashDiscount := updField inv.cashDiscount (candCashDiscount row)
    netInvoice := updField inv.netInvoice (candNetInvoice row)
    amountRealised := updField inv.amountRealised (candAmountRealised row)
    items := inv.items ++ [rowItem row] }

/-- `invoices.get(k)` on the insertion-ordered map. -/
def lookupInv (l : List (Str × Invoice)) (k : Str) : Option Invoice :=
  match l.find? (fun p => decide (p.1 = k)) with
  | some p => some p.2
  | none => none

/-- In-place replacement of the value stored at key `k`. -/
def replaceInv (l : List (Str × Invoice)) (k : Str) (v : Invoice) :
    List (Str × Invoice) :=
  l.map (fun p => if p.1 = k then (k, v) else p)

/-- Processing of one row already assigned to invoice key `k`: update the
existing invoice or create and append a new one. -/
def applyRow (l : List (Str × Invoice)) (k : Str) (row : RawRow) :
    List (Str × Invoice) :=
  match lookupInv l k with
  | some inv => replaceInv l k (updInvoice inv row)
  | none => l ++ [(k, mkInvoice k row)]

/-- Aggregation state: the invoice map and the running `lastInvNo`. -/
structure AggSt where
  invoices : List (Str × Invoice)
  lastInvNo : Option Str

/-- The invoice key a row is processed under: its own canonical number when
the cell is non-blank, the inherited `lastInvNo` when blank; `none` (row
dropped) when there is nothing to inherit or the canonical number is empty. -/
def assignedKey (last : Option Str) (row : RawRow) : Option Str :=
  match (if ¬ rowRawInvNo row = [] then some (normalizeInvoiceNo (rowRawInvNo row)) else last) with
  | none => none
  | some k => if k = [] then none else some k

/-- The `lastInvNo` value after a row: updated to the row's canonical number
only when the row's cell was non-blank and the row was not dropped. -/
def nextLast (last : Option Str) (row : RawRow) : Option Str :=
  match assignedKey last row with
  | none => last
  | some k => if ¬ rowRawInvNo row = [] then some k else last

/-- One iteration of the aggregation loop. -/
def aggStep (st : AggSt) (row : RawRow) : AggSt :=
  match assignedKey st.lastInvNo row with
  | none => st
  | some k => ⟨applyRow st.invoices k row, nextLast st.lastInvNo row⟩

/-- The full aggregation pass over a salesperson block. -/
def aggregateRows (rows : List RawRow) : List (Str × Invoice) :=
  (rows.foldl aggStep ⟨[], none⟩).invoices

/-- Every key produced by `assignedKey` is non-empty. -/
theorem assignedKey_ne_nil (last : Option Str) (row : RawRow) (k : Str)
    (h : assignedKey last row = some k) : ¬ k = [] := by
  rw [assignedKey] at h
  rcases hif : (if ¬ rowRawInvNo row = [] then some (normalizeInvoiceNo (rowRawInvNo row))
      else last) with _ | k''
  · rw [hif] at h; exact absurd h (by simp)
  · rw [hif] at h
    have h2 : (if k'' = [] then none else some k'') = some k := h
    by_cases hk'' : k'' = []
    · rw [if_pos hk''] at h2; exact absurd h2 (by simp)
    · rw [if_neg hk''] at h2
      injection h2 with h2
      subst h2
      exact hk''

/-- `lastInvNo` is `null` or a non-empty canonical number in every reachable
aggregation state. -/
theorem lastInvNo_wf (rows : List RawRow) (st : AggSt)
    (h : ∀ k, st.lastInvNo = some k → ¬ k = []) :
    ∀ k, (rows.foldl aggStep st).lastInvNo = some k → ¬ k = [] := by
  induction rows generalizing st with
  | nil => simpa using h
  | cons row rest ih =>
    rw [List.foldl_cons]
    apply ih
    intro k hk
    rw [aggStep] at hk
    cases ha : assignedKey st.lastInvNo row with
    | none => rw [ha] at hk; exact h k hk
    | some k' =>
      rw [ha] at hk
      rw [nextLast, ha] at hk
      have hk2 : (if ¬ rowRawInvNo row = [] then some k' else st.lastInvNo) = some k := hk
      by_cases hr : ¬ rowRawInvNo row = []
      · rw [if_pos hr] at hk2
        injection hk2 with hk2
        subst hk2
        exact assignedKey_ne_nil _ _ _ ha
      · rw [if_neg hr] at hk2
        exact h k hk2

/-- The example rows of the spec: a row carrying invoice number `INV1`,
followed by a row whose invoice-number cell is absent. -/
def exRow1 : RawRow :=
  [("Invoice No.".data, .vStr "INV1".data), ("Item/Model".data, .vStr "X".data)]

def exRow2 : RawRow :=
  [("Item/Model".data, .vStr "Y".data)]

/-- C6: a row with a blank invoice-number cell is processed under the last
non-blank canonical invoice number seen so far (`lastInvNo`); when none has
been seen, the row is dropped and the state is unchanged; and the spec's
two-row example aggregates both rows into the single invoice `INV1`. -/
theorem blank_invoice_row_spec :
    (∀ (st : AggSt) (row : RawRow),
      (∀ k, st.lastInvNo = some k → ¬ k = []) →
      rowRawInvNo row = [] →
      assignedKey st.lastInvNo row = st.lastInvNo ∧
      (st.lastInvNo = none → aggStep st row = st)) ∧
    (aggregateRows [exRow1, exRow2]).map Prod.fst = ["INV1".data] ∧
    (lookupInv (aggregateRows [exRow1, exRow2]) "INV1".data).map
      (fun i => i.items.length) = some 2 := by
  refine ⟨?_, by decide, by decide⟩
  intro st row hwf hblank
  have hak : assignedKey st.lastInvNo row = st.lastInvNo := by
    rw [assignedKey]
    simp only [hblank, not_true, if_false]
    cases hl : st.lastInvNo with
    | none => rfl
    | some k => simp [hwf k hl]
  refine ⟨hak, ?_⟩
  intro hnone
  rw [aggStep, hak, hnone]

/-- C6 witness: the blank-celled example row inherits the key `INV1` when it
is the last seen number, and is dropped (state unchanged) when nothing has
been seen yet. -/
theorem blank_invoice_row_spec_witness :
    rowRawInvNo exRow2 = [] ∧
    assignedKey (some "INV1".data) exRow2 = some "INV1".data ∧
    aggStep ⟨[], none⟩ exRow2 = ⟨[], none⟩ :=
  ⟨by decide,
   (blank_invoice_row_spec.1 ⟨[], some "INV1".data⟩ exRow2
      (fun k hk => by injection hk with hk; rw [← hk]; decide) (by decide)).1,
   (blank_invoice_row_spec.1 ⟨[], none⟩ exRow2
      (fun k hk => by simp at hk) (by decide)).2 rfl⟩

/-! C7: first-non-zero semantics of the invoice-level monetary fields. The
aggregation fold is first proved equal to a two-phase form: assign an invoice
key to every surviving row (threading `lastInvNo`), then fold the keyed rows
into the invoice map. -/

/-- Phase one: the key assigned to each surviving row of a block. -/
def assignKeysAux (last : Option Str) : List RawRow → List (Str × RawRow)
  | [] => []
  | row :: rest =>
    match assignedKey last row with
    | none => assignKeysAux (nextLast last row) rest
    | some k => (k, row) :: assignKeysAux (nextLast last row) rest

/-- Phase two: fold keyed rows into the invoice map. -/
def buildInvoices : List (Str × RawRow) → List (Str × Invoice) → List (Str × Invoice)
  | [], l => l
  | p :: rest, l => buildInvoices rest (applyRow l p.1 p.2)

theorem agg_eq_build (rows : List RawRow) (l : List (Str × Invoice)) (last : Option Str) :
    (rows.foldl aggStep ⟨l, last⟩).invoices = buildInvoices (assignKeysAux last rows) l := by
  induction rows generalizing l last with
  | nil => rfl
  | cons row rest ih =>
    rw [List.foldl_cons]
    cases ha : assignedKey last row with
    | none =>
      have hnl : nextLast last row = last := by rw [nextLast, ha]
      have hstep : aggStep ⟨l, last⟩ row = ⟨l, last⟩ := by
        rw [aggStep]
        rw [show assignedKey (AggSt.mk l last).lastInvNo row = none from ha]
      rw [hstep]
      simp only [assignKeysAux, ha, hnl]
      exact ih l last
    | some k =>
      have hstep : aggStep ⟨l, last⟩ row = ⟨applyRow l k row, nextLast last row⟩ := by
        rw [aggStep]
        rw [show assignedKey (AggSt.mk l last).lastInvNo row = some k from ha]
      rw [hstep]
      simp only [assignKeysAux, ha, buildInvoices]
      exact ih (applyRow l k row) (nextLast last row)

/-- First non-zero element of a list of candidate values, `0` when none. -/
def firstNonZero (l : List Rat) : Rat :=
  match l.find? (fun x => decide (¬ x = 0)) with
  | some x => x
  | none => 0

/-- `cur` while non-zero, else the first non-zero later candidate. -/
def fnz (cur : Rat) (l : List Rat) : Rat := if ¬ cur = 0 then cur else firstNonZero l

/-- The candidate values supplied for one field by the rows keyed `k`. -/
def candsFor (cand : RawRow → Rat) (ps : List (Str × RawRow)) (k : Str) : List Rat :=
  (ps.filter (fun p => decide (p.1 = k))).map (fun p => cand p.2)

theorem fnz_nil (g : Rat) : fnz g [] = g := by
  by_cases hg : g = 0 <;> simp [fnz, firstNonZero, hg]

theorem firstNonZero_cons (c : Rat) (l : List Rat) : firstNonZero (c :: l) = fnz c l := by
  by_cases hc : c = 0 <;> simp [firstNonZero, fnz, List.find?_cons, hc]

theorem fnz_updField (g c : Rat) (l : List Rat) : fnz (updField g c) l = fnz g (c :: l) := by
  by_cases hg : g = 0 <;> by_cases hc : c = 0 <;>
    simp [updField, fnz, firstNonZero_cons, hg, hc]

theorem candsFor_cons_eq (cand : RawRow → Rat) (k : Str) (row : RawRow)
    (rest : List (Str × RawRow)) :
    candsFor cand ((k, row) :: rest) k = cand row :: candsFor cand rest k := by
  simp [candsFor]

theorem candsFor_cons_ne (cand : RawRow → Rat) (k k' : Str) (row : RawRow)
    (rest : List (Str × RawRow)) (h : ¬ k' = k) :
    candsFor cand ((k', row) :: rest) k = candsFor cand rest k := by
  simp [candsFor, h]

theorem find?_append_of_some {α : Type} (p : α → Bool) (l₁ l₂ : List α) (a : α)
    (h : l₁.find? p = some a) : (l₁ ++ l₂).find? p = some a := by
  induction l₁ with
  | nil => simp at h
  | cons b t ih =>
    by_cases hp : p b = true
    · rw [List.find?_cons_of_pos _ hp] at h
      rw [List.cons_append, List.find?_cons_of_pos _ hp]
      exact h
    · rw [List.find?_cons_of_neg _ (by simpa using hp)] at h
      rw [List.cons_append, List.find?_cons_of_neg _ (by simpa using hp)]
      exact ih h

theorem lookupInv_replace_self (l : List (Str × Invoice)) (k : Str) (v inv : Invoice)
    (h : lookupInv l k = some inv) :
    lookupInv (replaceInv l k v) k = some v := by
  induction l with
  | nil => simp [lookupInv] at h
  | cons p t ih =>
    by_cases hp : p.1 = k
    · simp [lookupInv, replaceInv, List.find?_cons, hp]
    · rw [lookupInv, List.find?_cons_of_neg _ (by simpa using hp)] at h
      simp only [replaceInv, List.map_cons, if_neg hp]
      rw [lookupInv, List.find?_cons_of_neg _ (by simpa using hp)]
      exact ih h

theorem lookupInv_replace_other (l : List (Str × Invoice)) (k k' : Str) (v : Invoice)
    (hne : ¬ k' = k) :
    lookupInv (replaceInv l k' v) k = lookupInv l k := by
  induction l with
  | nil => simp [lookupInv, replaceInv]
  | cons p t ih =>
    by_cases hp : p.1 = k'
    · simp only [replaceInv, List.map_cons, if_pos hp]
      rw [lookupInv, List.find?_cons_of_neg _ (by simpa using hne),
        lookupInv, List.find?_cons_of_neg _ (by simp [hp, hne])]
      exact ih
    · simp only [replaceInv, List.map_cons, if_neg hp]
      by_cases hpk : p.1 = k
      · rw [lookupInv, List.find?_cons_of_pos _ (by simpa using hpk),
          lookupInv, List.find?_cons_of_pos _ (by simpa using hpk)]
      · rw [lookupInv, List.find?_cons_of_neg _ (by simpa using hpk),
          lookupInv, List.find?_cons_of_neg _ (by simpa using hpk)]
        exact ih

theorem lookupInv_append_single (l : List (Str × Invoice)) (k k' : Str) (v : Invoice)
    (h : lookupInv l k = none) :
    lookupInv (l ++ [(k', v)]) k = if k' = k then some v else none := by
  rw [lookupInv] at h ⊢
  cases hf : l.find? (fun p => decide (p.1 = k)) with
  | some p => rw [hf] at h; exact absurd h (by simp)
  | none =>
    rw [find?_append_of_none _ _ _ hf]
    by_cases hk : k' = k
    · rw [List.find?_cons_of_pos _ (by simpa using hk), if_pos hk]
    · rw [List.find?_cons_of_neg _ (by simpa using hk), if_neg hk]
      rfl

theorem lookupInv_append_of_some (l : List (Str × Invoice)) (k k' : Str) (v inv : Invoice)
    (h : lookupInv l k = some inv) :
    lookupInv (l ++ [(k', v)]) k = some inv := by
  rw [lookupInv] at h ⊢
  cases hf : l.find? (fun p => decide (p.1 = k)) with
  | none => rw [hf] at h; exact absurd h (by simp)
  | some p =>
    rw [hf] at h
    rw [find?_append_of_some _ _ _ _ hf]
    exact h

theorem build_field_char (getter : Invoice → Rat) (cand : RawRow → Rat)
    (hmk : ∀ k row, getter (mkInvoice k row) = cand row)
    (hupd : ∀ inv row, getter (updInvoice inv row) = updField (getter inv) (cand row))
    (ps : List (Str × RawRow)) (l : List (Str × Invoice)) (k : Str) :
    (lookupInv (buildInvoices ps l) k).map getter =
      match lookupInv l k with
      | some inv0 => some (fnz (getter inv0) (candsFor cand ps k))
      | none =>
        if ps.any (fun p => decide (p.1 = k)) then
          some (firstNonZero (candsFor cand ps k))
        else none := by
  induction ps generalizing l with
  | nil =>
    cases hl : lookupInv l k with
    | none => simp [buildInvoices, candsFor, hl]
    | some inv0 => simp [buildInvoices, candsFor, hl, fnz_nil]
  | cons p rest ih =>
    obtain ⟨k', row⟩ := p
    by_cases hk : k' = k
    · subst hk
      cases hl : lookupInv l k' with
      | none =>
        have happ : applyRow l k' row = l ++ [(k', mkInvoice k' row)] := by
          rw [applyRow, hl]
        have hlook : lookupInv (applyRow l k' row) k' = some (mkInvoice k' row) := by
          rw [happ, lookupInv_append_single _ _ _ _ hl, if_pos rfl]
        rw [buildInvoices, ih, hlook]
        simp only [hmk, candsFor_cons_eq, firstNonZero_cons, List.any_cons]
        simp
      | some inv0 =>
        have happ : applyRow l k' row = replaceInv l k' (updInvoice inv0 row) := by
          rw [applyRow, hl]
        have hlook : lookupInv (applyRow l k' row) k' = some (updInvoice inv0 row) := by
          rw [happ]
          exact lookupInv_replace_self _ _ _ _ hl
        rw [buildInvoices, ih, hlook]
        simp only [hupd, fnz_updField, candsFor_cons_eq]
    · have happ : lookupInv (applyRow l k' row) k = lookupInv l k := by
        rw [applyRow]
        cases hl' : lookupInv l k' with
        | some inv0 => exact lookupInv_replace_other _ _ _ _ hk
        | none =>
          cases hlk : lookupInv l k with
          | some inv => exact lookupInv_append_of_some _ _ _ _ _ hlk
          | none => rw [lookupInv_append_single _ _ _ _ hlk, if_neg hk]
      have hc : (decide (k' = k)) = false := by simpa using hk
      rw [buildInvoices, ih, happ]
      simp only [candsFor_cons_ne cand k k' row rest hk, List.any_cons, hc, Bool.false_or]

theorem aggStep_preserves_nonzero_field (getter : Invoice → Rat) (cand : RawRow → Rat)
    (hupd : ∀ inv row, getter (updInvoice inv row) = updField (getter inv) (cand row))
    (st : AggSt) (row : RawRow) (k : Str) (inv inv' : Invoice)
    (h1 : lookupInv st.invoices k = some inv)
    (h2 : lookupInv ((aggStep st row).invoices) k = some inv')
    (hnz : ¬ getter inv = 0) :
    getter inv' = getter inv := by
  rw [aggStep] at h2
  cases ha : assignedKey st.lastInvNo row with
  | none =>
    rw [ha] at h2
    rw [h1] at h2
    injection h2 with h2
    rw [← h2]
  | some k' =>
    rw [ha] at h2
    have h2' : lookupInv (applyRow st.invoices k' row) k = some inv' := h2
    rw [applyRow] at h2'
    cases hl' : lookupInv st.invoices k' with
    | some inv0 =>
      rw [hl'] at h2'
      by_cases hk : k' = k
      · subst hk
        have : inv0 = inv := by rw [hl'] at h1; injection h1
        subst this
        rw [lookupInv_replace_self _ _ _ _ hl'] at h2'
        injection h2' with h2'
        rw [← h2', hupd, updField, if_neg (by simp [hnz])]
      · rw [lookupInv_replace_other _ _ _ _ hk] at h2'
        rw [h1] at h2'
        injection h2' with h2'
        rw [← h2']
    | none =>
      rw [hl'] at h2'
      by_cases hk : k' = k
      · subst hk
        rw [hl'] at h1
        exact absurd h1 (by simp)
      · rw [lookupInv_append_of_some _ _ _ _ _ h1] at h2'
        injection h2' with h2'
        rw [← h2']

/-- The seven invoice-level monetary fields, each paired with the candidate
value its alias chain extracts from a row. -/
def monetaryFields : List ((Invoice → Rat) × (RawRow → Rat)) :=
  [(Invoice.netInvoice, candNetInvoice),
   (Invoice.amountRealised, candAmountRealised),
   (Invoice.invoiceValue, candInvoiceValue),
   (Invoice.ccCharges, candCcCharges),
   (Invoice.negRoundOff, candNegRoundOff),
   (Invoice.posRoundOff, candPosRoundOff),
   (Invoice.cashDiscount, candCashDiscount)]

theorem agg_field_char (getter : Invoice → Rat) (cand : RawRow → Rat)
    (hmk : ∀ k row, getter (mkInvoice k row) = cand row)
    (hupd : ∀ inv row, getter (updInvoice inv row) = updField (getter inv) (cand row))
    (rows : List RawRow) (k : Str) (inv : Invoice)
    (h : lookupInv (aggregateRows rows) k = some inv) :
    getter inv = firstNonZero (candsFor cand (assignKeysAux none rows) k) := by
  have heq : aggregateRows rows = buildInvoices (assignKeysAux none rows) [] :=
    agg_eq_build rows [] none
  rw [heq] at h
  have hchar := build_field_char getter cand hmk hupd (assignKeysAux none rows) [] k
  rw [h] at hchar
  have hnil : lookupInv ([] : List (Str × Invoice)) k = none := rfl
  rw [hnil] at hchar
  by_cases hany : ((assignKeysAux none rows).any (fun p => decide (p.1 = k))) = true
  · rw [if_pos hany] at hchar
    simpa using hchar
  · rw [if_neg hany] at hchar
    simp at hchar

/-- C7: for every invoice built by the aggregator and each of its seven
monetary fields, the final value is the first non-zero candidate supplied by
the invoice's rows in row order (`0` when none is non-zero); and within one
aggregation step a field already holding a non-zero value is never changed. -/
theorem invoice_monetary_first_nonzero :
    ∀ gc ∈ monetaryFields,
      (∀ (rows : List RawRow) (k : Str) (inv : Invoice),
        lookupInv (aggregateRows rows) k = some inv →
        gc.1 inv = firstNonZero (candsFor gc.2 (assignKeysAux none rows) k)) ∧
      (∀ (st : AggSt) (row : RawRow) (k : Str) (inv inv' : Invoice),
        lookupInv st.invoices k = some inv →
        lookupInv ((aggStep st row).invoices) k = some inv' →
        ¬ gc.1 inv = 0 → gc.1 inv' = gc.1 inv) := by
  intro gc hgc
  simp only [monetaryFields, List.mem_cons, List.not_mem_nil, or_false] at hgc
  rcases hgc with rfl | rfl | rfl | rfl | rfl | rfl | rfl <;>
    exact ⟨fun rows k inv h =>
        agg_field_char _ _ (fun _ _ => rfl) (fun _ _ => rfl) rows k inv h,
      fun st row k inv inv' h1 h2 hnz =>
        aggStep_preserves_nonzero_field _ _ (fun _ _ => rfl) st row k inv inv' h1 h2 hnz⟩

/-- A single-row block carrying only an invoice number. -/
def exC7Row : RawRow := [("Invoice No.".data, .vStr "INV7".data)]

/-- An invoice record with a non-zero `netInvoice`, for the preservation
part. -/
def exC7Inv : Invoice := ⟨"K".data, .vStr [], 5, 0, 0, 0, 0, 0, 0, []⟩

/-- C7 witness: the first-non-zero characterization at a concrete one-row
block, and non-zero preservation at a concrete state and row. -/
theorem invoice_monetary_first_nonzero_witness :
    ((Invoice.netInvoice, candNetInvoice) ∈ monetaryFields ∧
      lookupInv (aggregateRows [exC7Row]) "INV7".data =
        some (mkInvoice "INV7".data exC7Row) ∧
      Invoice.netInvoice (mkInvoice "INV7".data exC7Row) =
        firstNonZero (candsFor candNetInvoice (assignKeysAux none [exC7Row]) "INV7".data)) ∧
    (lookupInv (AggSt.mk [("K".data, exC7Inv)] (some "K".data)).invoices "K".data =
        some exC7Inv ∧
      lookupInv ((aggStep (AggSt.mk [("K".data, exC7Inv)] (some "K".data)) exRow2).invoices)
          "K".data = some (updInvoice exC7Inv exRow2) ∧
      ¬ Invoice.netInvoice exC7Inv = 0 ∧
      Invoice.netInvoice (updInvoice exC7Inv exRow2) = Invoice.netInvoice exC7Inv) :=
  ⟨⟨by simp [monetaryFields], by decide,
    (invoice_monetary_first_nonzero (Invoice.netInvoice, candNetInvoice)
        (by simp [monetaryFields])).1 [exC7Row] "INV7".data
      (mkInvoice "INV7".data exC7Row) (by decide)⟩,
   ⟨by decide, by decide, by decide,
    (invoice_monetary_first_nonzero (Invoice.netInvoice, candNetInvoice)
        (by simp [monetaryFields])).2 (AggSt.mk [("K".data, exC7Inv)] (some "K".data))
      exRow2 "K".data exC7Inv (updInvoice exC7Inv exRow2)
      (by decide) (by decide) (by decide)⟩⟩

/-! The reconciliation loop of `processRowsForSalesperson`
(`server.js` lines 447-601): line classification, the credit-mismatch rule
with the finance-customer exemption, and the block totals. -/

/-- The fixed finance-customer allowlist (`FINANCE_CUSTOMERS`). -/
def FINANCE_CUSTOMERS : List Str :=
  ["BAJAJ FINANCE LTD".data, "TVS FINANCE LTD".data, "HDB FINANCE LTD".data]

/-- `isSparesItem` from `server.js` (lines 124-127): false for falsy input,
else whether the trimmed uppercased text starts with `SPARES`. -/
def isSparesItem (v : Value) : Bool :=
  if truthy v = false then false
  else jsStarts (jsUpper (jsTrim (jsToString v))) "SPARES".data

/-- `const model = String(item.model || "")`. -/
def modelOf (item : Item) : Str := jsToString (jsOr item.model (.vStr []))

/-- The canonical customer of an invoice:
`String(inv.customer || "").trim().toUpperCase()`. -/
def canonCustomer (inv : Invoice) : Str :=
  jsUpper (jsTrim (jsToString (jsOr inv.customer (.vStr []))))

/-- The processed salesperson brand:
`salesperson.brand ? salesperson.brand.toUpperCase() : null`. -/
def mkOwnBrand (brand : Option Str) : Option Str :=
  match brand with
  | none => none
  | some b => if b = [] then none else some (jsUpper b)

/-- One line's contribution `(spares, own, other)` in the per-invoice item
loop: zero-net lines are skipped, spares lines accumulate into `sparesTotal`,
the rest is own when the brand is set and the uppercased model starts with
it, otherwise other. -/
def itemContrib (ownBrand : Option Str) (item : Item) : Rat × Rat × Rat :=
  if item.netAmount = 0 then (0, 0, 0)
  else if isSparesItem (.vStr (modelOf item)) then (item.netAmount, 0, 0)
  else
    match ownBrand with
    | some b =>
      if jsStarts (jsUpper (modelOf item)) b then (0, item.netAmount, 0)
      else (0, 0, item.netAmount)
    | none => (0, 0, item.netAmount)

/-- `(sparesTotal, ownNet, otherNet)` of one invoice. -/
def invoiceTotals (ownBrand : Option Str) (inv : Invoice) : Rat × Rat × Rat :=
  inv.items.foldl (fun acc it =>
    (acc.1 + (itemContrib ownBrand it).1,
     acc.2.1 + (itemContrib ownBrand it).2.1,
     acc.2.2 + (itemContrib ownBrand it).2.2)) (0, 0, 0)

/-- Model of JS `Math.round` (half-up, towards positive infinity). -/
def jsRound (q : Rat) : Int := ⌊q + 1 / 2⌋

/-- The contribution of one invoice map entry to `(totalOwn, totalOther)`:
zero when the key is in the sales-return set, when the credit mismatch rule
fires for a non-finance customer, or when both nets are zero. -/
def invoiceContrib (ownBrand : Option Str) (retSet : List Str)
    (kv : Str × Invoice) : Rat × Rat :=
  if retSet.contains kv.1 then (0, 0)
  else
    if (¬ jsRound kv.2.netInvoice = jsRound kv.2.amountRealised) ∧
        ¬ FINANCE_CUSTOMERS.contains (canonCustomer kv.2) = true then (0, 0)
    else if (invoiceTotals ownBrand kv.2).2.1 = 0 ∧
        (invoiceTotals ownBrand kv.2).2.2 = 0 then (0, 0)
    else ((invoiceTotals ownBrand kv.2).2.1, (invoiceTotals ownBrand kv.2).2.2)

/-- The same contribution with the credit-mismatch rule removed (what the
loop does to an invoice exempt from that rule). -/
def invoiceContribNoMismatch (ownBrand : Option Str) (retSet : List Str)
    (kv : Str × Invoice) : Rat × Rat :=
  if retSet.contains kv.1 then (0, 0)
  else if (invoiceTotals ownBrand kv.2).2.1 = 0 ∧
      (invoiceTotals ownBrand kv.2).2.2 = 0 then (0, 0)
  else ((invoiceTotals ownBrand kv.2).2.1, (invoiceTotals ownBrand kv.2).2.2)

/-- `(totalOwn, totalOther)` of a salesperson block's invoice map. -/
def reconcileTotals (ownBrand : Option Str) (retSet : List Str)
    (invs : List (Str × Invoice)) : Rat × Rat :=
  invs.foldl (fun acc kv =>
    (acc.1 + (invoiceContrib ownBrand retSet kv).1,
     acc.2 + (invoiceContrib ownBrand retSet kv).2)) (0, 0)

theorem reconcileTotals_skip (ownBrand : Option Str) (retSet : List Str)
    (kv : Str × Invoice) (pre post : List (Str × Invoice))
    (h : invoiceContrib ownBrand retSet kv = (0, 0)) :
    reconcileTotals ownBrand retSet (pre ++ kv :: post) =
      reconcileTotals ownBrand retSet (pre ++ post) := by
  rw [reconcileTotals, reconcileTotals, List.foldl_append, List.foldl_append,
    List.foldl_cons, h]
  simp

/-- C1: for an invoice whose rounded `netInvoice` differs from its rounded
`amountRealised`, a non-finance customer means the invoice contributes
nothing to the block totals (inserting it anywhere leaves `totalOwn` and
`totalOther` unchanged), while a finance-allowlist customer means the
invoice is processed exactly as if the mismatch rule did not exist. -/
theorem credit_mismatch_spec (ownBrand : Option Str) (retSet : List Str)
    (k : Str) (inv : Invoice) (pre post : List (Str × Invoice))
    (hmis : ¬ jsRound inv.netInvoice = jsRound inv.amountRealised) :
    (FINANCE_CUSTOMERS.contains (canonCustomer inv) = false →
      invoiceContrib ownBrand retSet (k, inv) = (0, 0) ∧
      reconcileTotals ownBrand retSet (pre ++ (k, inv) :: post) =
        reconcileTotals ownBrand retSet (pre ++ post)) ∧
    (FINANCE_CUSTOMERS.contains (canonCustomer inv) = true →
      invoiceContrib ownBrand retSet (k, inv) =
        invoiceContribNoMismatch ownBrand retSet (k, inv)) := by
  constructor
  · intro hfin
    have hc : invoiceContrib ownBrand retSet (k, inv) = (0, 0) := by
      rw [invoiceContrib]
      split
      · rfl
      · rw [if_pos ⟨hmis, by rw [hfin]; simp⟩]
    exact ⟨hc, reconcileTotals_skip _ _ _ _ _ hc⟩
  · intro hfin
    rw [invoiceContrib, invoiceContribNoMismatch]
    by_cases hret : retSet.contains ((k, inv) : Str × Invoice).1 = true
    · rw [if_pos hret, if_pos hret]
    · rw [if_neg hret, if_neg hret, if_neg (by rw [hfin]; simp)]

/-- The spec's mismatch example: `netInvoice = 1000`, `amountRealised = 999`,
non-finance customer. -/
def exMismatchInv : Invoice :=
  ⟨"GI/1".data, .vStr "RANDOM CUSTOMER".data, 1000, 999, 0, 0, 0, 0, 0,
    [⟨.vStr "VIDEUM X".data, .vStr [], 100⟩]⟩

/-- The same mismatch with the finance customer `BAJAJ FINANCE LTD`. -/
def exFinanceInv : Invoice :=
  ⟨"GI/2".data, .vStr "BAJAJ FINANCE LTD".data, 1000, 999, 0, 0, 0, 0, 0,
    [⟨.vStr "VIDEUM X".data, .vStr [], 100⟩]⟩

/-- C1 witness: the two spec examples — the mismatching non-finance invoice
contributes nothing; the finance one is handled as if no mismatch rule
existed. -/
theorem credit_mismatch_spec_witness :
    (¬ jsRound exMismatchInv.netInvoice = jsRound exMismatchInv.amountRealised) ∧
    (FINANCE_CUSTOMERS.contains (canonCustomer exMismatchInv) = false ∧
      reconcileTotals none [] ([] ++ ("GI/1".data, exMismatchInv) :: []) =
        reconcileTotals none [] ([] ++ [])) ∧
    (FINANCE_CUSTOMERS.contains (canonCustomer exFinanceInv) = true ∧
      invoiceContrib none [] ("GI/2".data, exFinanceInv) =
        invoiceContribNoMismatch none [] ("GI/2".data, exFinanceInv)) := by
  have hmis1 : ¬ jsRound exMismatchInv.netInvoice = jsRound exMismatchInv.amountRealised := by
    norm_num [exMismatchInv, jsRound]
  have hmis2 : ¬ jsRound exFinanceInv.netInvoice = jsRound exFinanceInv.amountRealised := by
    norm_num [exFinanceInv, jsRound]
  refine ⟨hmis1,
    ⟨by decide, ((credit_mismatch_spec none [] "GI/1".data exMismatchInv [] [] hmis1).1
      (by decide)).2⟩,
    ⟨by decide, (credit_mismatch_spec none [] "GI/2".data exFinanceInv [] [] hmis2).2
      (by decide)⟩⟩

/-- C2: in the per-invoice item loop, a spares line contributes its
`netAmount` only to `sparesTotal`; a non-spares zero-net line contributes
nothing; a remaining non-spares line is own exactly when the brand is set and
the uppercased model starts with it, other otherwise — in particular always
other when the salesperson has no brand. -/
theorem line_classification_spec (ownBrand : Option Str) (item : Item) :
    (isSparesItem (.vStr (modelOf item)) = true →
      itemContrib ownBrand item = (item.netAmount, 0, 0)) ∧
    (isSparesItem (.vStr (modelOf item)) = false → item.netAmount = 0 →
      itemContrib ownBrand item = (0, 0, 0)) ∧
    (∀ b, ownBrand = some b → isSparesItem (.vStr (modelOf item)) = false →
      ¬ item.netAmount = 0 →
      itemContrib ownBrand item =
        if jsStarts (jsUpper (modelOf item)) b then (0, item.netAmount, 0)
        else (0, 0, item.netAmount)) ∧
    (ownBrand = none → isSparesItem (.vStr (modelOf item)) = false →
      ¬ item.netAmount = 0 →
      itemContrib ownBrand item = (0, 0, item.netAmount)) := by
  refine ⟨?_, ?_, ?_, ?_⟩
  · intro hsp
    rw [itemContrib.eq_def]
    by_cases hz : item.netAmount = 0
    · rw [if_pos hz, hz]
    · rw [if_neg hz, if_pos hsp]
  · intro _ hz
    rw [itemContrib.eq_def, if_pos hz]
  · intro b hb hsp hz
    subst hb
    rw [itemContrib.eq_def, if_neg hz, if_neg (by simp [hsp])]
  · intro hb hsp hz
    subst hb
    rw [itemContrib.eq_def, if_neg hz, if_neg (by simp [hsp])]

/-- The spec's line items: an own-brand line, a spares line, and a line for a
salesperson with no brand. -/
def exItemOwn : Item := ⟨.vStr "VIDEUM X200".data, .vStr [], 5000⟩

def exItemSpares : Item := ⟨.vStr "SPARES-X".data, .vStr [], 200⟩

def exItemOther : Item := ⟨.vStr "GIZMO".data, .vStr [], 300⟩

/-- C2 witness: the spec's three example classifications. -/
theorem line_classification_spec_witness :
    (isSparesItem (.vStr (modelOf exItemSpares)) = true ∧
      itemContrib (some "VIDEUM".data) exItemSpares = (exItemSpares.netAmount, 0, 0)) ∧
    (isSparesItem (.vStr (modelOf exItemOwn)) = false ∧ ¬ exItemOwn.netAmount = 0 ∧
      itemContrib (some "VIDEUM".data) exItemOwn =
        if jsStarts (jsUpper (modelOf exItemOwn)) "VIDEUM".data
        then (0, exItemOwn.netAmount, 0) else (0, 0, exItemOwn.netAmount)) ∧
    (isSparesItem (.vStr (modelOf exItemOther)) = false ∧
      itemContrib none exItemOther = (0, 0, exItemOther.netAmount)) :=
  ⟨⟨by decide, (line_classification_spec (some "VIDEUM".data) exItemSpares).1 (by decide)⟩,
   ⟨by decide, by decide,
    (line_classification_spec (some "VIDEUM".data) exItemOwn).2.2.1 "VIDEUM".data rfl
      (by decide) (by decide)⟩,
   ⟨by decide,
    (line_classification_spec none exItemOther).2.2.2 rfl (by decide) (by decide)⟩⟩

/-! The block segmentation loop of `processExcelFileMulti`
(`server.js` lines 614-729): raw rows are arrays of cell values; the loop
tracks the shared header row, the current salesperson, and the per-salesperson
row-object lists. -/

/-- `rowArr[i]` with JS out-of-bounds semantics (`undefined`). -/
def cellAt (r : List Value) (i : Nat) : Value := r.getD i .undefined

/-- `String(rowArr[0] || "").trim()`. -/
def rowFirstCell (r : List Value) : Str := jsTrim (jsToString (jsOr (cellAt r 0) (.vStr [])))

/-- `String(rowArr[1] || "").trim()`. -/
def rowSecondCell (r : List Value) : Str := jsTrim (jsToString (jsOr (cellAt r 1) (.vStr [])))

/-- `secondCell.toUpperCase().includes("TOTAL")`. -/
def isTotalSecond (r : List Value) : Bool := strContains (jsUpper (rowSecondCell r)) "TOTAL".data

/-- `/^Date$/i.test(firstCell)`. -/
def isDateRow (r : List Value) : Bool := jsUpper (rowFirstCell r) = "DATE".data

/-- `/^Salesperson\s*:/i.test(firstCell)`. -/
def isSalespersonMarker (s : Str) : Bool :=
  jsStarts (jsUpper s) "SALESPERSON".data &&
    jsStarts ((s.drop 11).dropWhile jsIsWS) ":".data

/-- `parts[1] ? parts[1].trim() : ""` after `firstCell.split(":")`. -/
def markerName (s : Str) : Str :=
  match (List.splitOn ':' s).getD 1 [] with
  | [] => []
  | p => jsTrim p

/-- `/^total$/i`. -/
def isTotalRow (s : Str) : Bool := jsUpper s = "TOTAL".data

/-- `/^grand total$/i`. -/
def isGrandTotalRow (s : Str) : Bool := jsUpper s = "GRAND TOTAL".data

/-- `/^branch\s*:/i`. -/
def isBranchRow (s : Str) : Bool :=
  jsStarts (jsUpper s) "BRANCH".data && jsStarts ((s.drop 6).dropWhile jsIsWS) ":".data

/-- `/^period\s*:/i`. -/
def isPeriodRow (s : Str) : Bool :=
  jsStarts (jsUpper s) "PERIOD".data && jsStarts ((s.drop 6).dropWhile jsIsWS) ":".data

/-- `rowArr.every(cell => String(cell || "").trim() === "")`. -/
def isRowEmpty (r : List Value) : Bool :=
  r.all (fun c => decide (jsTrim (jsToString (jsOr c (.vStr []))) = []))

/-- JS object assignment `rowObj[k] = v`: overwrite in place or append. -/
def objInsert (o : RawRow) (k : Str) (v : Value) : RawRow :=
  if o.any (fun p => decide (p.1 = k)) then
    o.map (fun p => if p.1 = k then (k, v) else p)
  else o ++ [(k, v)]

/-- Conversion of a raw array row to a row object through the shared header
(blank header cells create no column). -/
def buildRowObj (header rowArr : List Value) : RawRow :=
  header.enum.foldl (fun o hi =>
    if truthy hi.2 = false then o
    else objInsert o (jsTrim (jsToString hi.2)) (cellAt rowArr hi.1)) []

/-- `rowsBySalesperson[name] = rowsBySalesperson[name] || []`. -/
def ensureBlock (bs : List (Str × List RawRow)) (k : Str) : List (Str × List RawRow) :=
  if bs.any (fun p => decide (p.1 = k)) then bs else bs ++ [(k, [])]

/-- `rowsBySalesperson[current].push(rowObj)`. -/
def pushRow (bs : List (Str × List RawRow)) (k : Str) (r : RawRow) :
    List (Str × List RawRow) :=
  bs.map (fun p => if p.1 = k then (p.1, p.2 ++ [r]) else p)

/-- Segmentation state: shared header, current salesperson, blocks. -/
structure SegSt where
  header : Option (List Value)
  current : Option Str
  blocks : List (Str × List RawRow)

/-- One iteration of the segmentation loop, in the source's branch order:
second-cell TOTAL skip, one-shot header capture, salesperson marker, the
header/current guard, meta-row skip, then row conversion and push. -/
def segStep (st : SegSt) (rowArr : List Value) : SegSt :=
  if isTotalSecond rowArr then st
  else if st.header.isNone && isDateRow rowArr then
    { st with header := some rowArr }
  else if isSalespersonMarker (rowFirstCell rowArr) then
    match markerName (rowFirstCell rowArr) with
    | [] => { st with current := none }
    | name =>
      { st with current := some (jsUpper name),
                blocks := ensureBlock st.blocks (jsUpper name) }
  else if st.current.isNone || st.header.isNone then st
  else if isRowEmpty rowArr || isTotalRow (rowFirstCell rowArr) ||
      isGrandTotalRow (rowFirstCell rowArr) || isBranchRow (rowFirstCell rowArr) ||
      isPeriodRow (rowFirstCell rowArr) then st
  else
    match st.current, st.header with
    | some cur, some hdr =>
      { st with blocks := pushRow st.blocks cur (buildRowObj hdr rowArr) }
    | _, _ => st

/-- The segmentation pass over a sheet. -/
def segmentRows (rows : List (List Value)) : SegSt :=
  rows.foldl segStep ⟨none, none, []⟩

/-- C9 counterexample: in a sheet whose first `Date` row has a second cell
containing `total`, the captured header is not the first row whose first cell
equals `Date` — that row is consumed by the earlier TOTAL-skip branch. -/
theorem header_skips_total_date_row :
    isDateRow [Value.vStr "Date".data, .vStr "Total".data] = true ∧
    (segmentRows [[Value.vStr "Date".data, .vStr "Total".data],
        [Value.vStr "Date".data, .vStr "B".data]]).header =
      some [Value.vStr "Date".data, .vStr "B".data] ∧
    ¬ ([Value.vStr "Date".data, .vStr "B".data] =
        [Value.vStr "Date".data, .vStr "Total".data]) := by
  refine ⟨by decide, by decide, by decide⟩

theorem segStep_header_some (st : SegSt) (row : List Value) (h0 : List Value)
    (h : st.header = some h0) : (segStep st row).header = some h0 := by
  rw [segStep]
  split
  · exact h
  · split
    · rename_i hc
      rw [h] at hc
      simp at hc
    · split
      · split
        · exact h
        · exact h
      · split
        · exact h
        · split
          · exact h
          · have hm : (match st.current, st.header with
                | some cur, some hdr =>
                  { st with blocks := pushRow st.blocks cur (buildRowObj hdr row) }
                | _, _ => st).header = st.header := by
              cases hcur : st.current <;> cases hhd : st.header <;> simp [hhd]
            rw [hm, h]

theorem segStep_header_none_char (st : SegSt) (row : List Value)
    (hh : st.header = none) :
    (segStep st row).header =
      if (!(isTotalSecond row) && isDateRow row) = true then some row else none := by
  rw [segStep]
  split
  · rename_i hc
    rw [hc]
    simpa using hh
  · rename_i hc
    have hc' : isTotalSecond row = false := by simpa using hc
    split
    · rename_i hd
      rw [hh] at hd
      simp only [Option.isNone_none, Bool.true_and] at hd
      simp [hc', hd]
    · rename_i hd
      rw [hh] at hd
      simp only [Option.isNone_none, Bool.true_and] at hd
      have hd' : isDateRow row = false := by simpa using hd
      rw [hc', hd']
      simp only [Bool.not_false, Bool.true_and, if_neg]
      split
      · split
        · exact hh
        · exact hh
      · split
        · exact hh
        · split
          · exact hh
          · have hm : (match st.current, st.header with
                | some cur, some hdr =>
                  { st with blocks := pushRow st.blocks cur (buildRowObj hdr row) }
                | _, _ => st).header = st.header := by
              cases hcur : st.current <;> cases hhd : st.header <;> simp [hhd]
            rw [hm, hh]
            simp

theorem segment_header_persistent (rows : List (List Value)) (st : SegSt)
    (h0 : List Value) (h : st.header = some h0) :
    (rows.foldl segStep st).header = some h0 := by
  induction rows generalizing st with
  | nil => simpa using h
  | cons row rest ih =>
    rw [List.foldl_cons]
    exact ih _ (segStep_header_some st row h0 h)

theorem header_char_aux (rows : List (List Value)) (st : SegSt)
    (hh : st.header = none) :
    (rows.foldl segStep st).header =
      rows.find? (fun r => !(isTotalSecond r) && isDateRow r) := by
  induction rows generalizing st with
  | nil => simpa using hh
  | cons row rest ih =>
    rw [List.foldl_cons]
    cases hcond : (!(isTotalSecond row) && isDateRow row) with
    | true =>
      have h1 : (segStep st row).header = some row := by
        rw [segStep_header_none_char st row hh, hcond, if_pos rfl]
      rw [segment_header_persistent _ _ _ h1,
        List.find?_cons_of_pos rest
          (show (fun r => !isTotalSecond r && isDateRow r) row = true from hcond)]
    | false =>
      have h1 : (segStep st row).header = none := by
        rw [segStep_header_none_char st row hh, hcond]
        simp
      rw [ih _ h1,
        List.find?_cons_of_neg rest
          (show ¬ (fun r => !isTotalSecond r && isDateRow r) row = true by simp [hcond])]

theorem mem_ensureBlock (bs : List (Str × List RawRow)) (k : Str)
    (p : Str × List RawRow) (h : p ∈ ensureBlock bs k) : p ∈ bs ∨ p = (k, []) := by
  rw [ensureBlock] at h
  split at h
  · exact Or.inl h
  · rcases List.mem_append.mp h with h | h
    · exact Or.inl h
    · simp only [List.mem_singleton] at h
      exact Or.inr h

theorem segStep_no_date_inv (st : SegSt) (row : List Value)
    (hd : isDateRow row = false) (hh : st.header = none)
    (hb : ∀ p ∈ st.blocks, p.2 = []) :
    (segStep st row).header = none ∧ ∀ p ∈ (segStep st row).blocks, p.2 = [] := by
  constructor
  · rw [segStep_header_none_char st row hh, hd]
    simp
  · intro p hp
    rw [segStep] at hp
    split at hp
    · exact hb p hp
    · split at hp
      · rename_i hc
        rw [hh, hd] at hc
        simp at hc
      · split at hp
        · split at hp
          · exact hb p hp
          · rcases mem_ensureBlock _ _ _ hp with h | h
            · exact hb p h
            · rw [h]
        · split at hp
          · exact hb p hp
          · split at hp
            · exact hb p hp
            · rename_i hguard _
              rw [hh] at hguard
              simp at hguard

theorem seg_no_date_aux (rs : List (List Value)) (st : SegSt)
    (hnd : ∀ r ∈ rs, isDateRow r = false) (hh : st.header = none)
    (hb : ∀ p ∈ st.blocks, p.2 = []) :
    ∀ p ∈ (rs.foldl segStep st).blocks, p.2 = [] := by
  induction rs generalizing st with
  | nil =>
    intro p hp
    rw [List.foldl_nil] at hp
    exact hb p hp
  | cons row rest ih =>
    rw [List.foldl_cons]
    have hstep := segStep_no_date_inv st row (hnd row (by simp)) hh hb
    exact ih _ (fun r hr => hnd r (List.mem_cons_of_mem _ hr)) hstep.1 hstep.2

/-- C9 (amended): the shared header is the first row whose second cell does
not contain `total` (case-insensitively) and whose first cell equals `Date`
case-insensitively; once captured it is never reset by any later row; and a
sheet with no `Date` row leaves every salesperson block's row list empty. -/
theorem header_capture_spec :
    (∀ rows : List (List Value),
      (segmentRows rows).header =
        rows.find? (fun r => !isTotalSecond r && isDateRow r)) ∧
    (∀ (st : SegSt) (rows : List (List Value)) (h0 : List Value),
      st.header = some h0 → (rows.foldl segStep st).header = some h0) ∧
    (∀ rows : List (List Value), (∀ r ∈ rows, isDateRow r = false) →
      ∀ p ∈ (segmentRows rows).blocks, p.2 = []) := by
  refine ⟨?_, ?_, ?_⟩
  · intro rows
    exact header_char_aux rows ⟨none, none, []⟩ rfl
  · intro st rows h0 h
    exact segment_header_persistent rows st h0 h
  · intro rows hnd
    exact seg_no_date_aux rows ⟨none, none, []⟩ hnd rfl (by simp)

/-- C9 witness: header persistence from a concrete already-captured state,
and the no-`Date`-row case on a sheet that still opens a block. -/
theorem header_capture_spec_witness :
    ((SegSt.mk (some [Value.vStr "Date".data]) none []).header =
        some [Value.vStr "Date".data] ∧
      ([[Value.vStr "Date".data, Value.vStr "B".data]].foldl segStep
          (SegSt.mk (some [Value.vStr "Date".data]) none [])).header =
        some [Value.vStr "Date".data]) ∧
    ((∀ r ∈ [[Value.vStr "Salesperson : A".data]], isDateRow r = false) ∧
      ∀ p ∈ (segmentRows [[Value.vStr "Salesperson : A".data]]).blocks, p.2 = []) :=
  ⟨⟨rfl,
    header_capture_spec.2.1 (SegSt.mk (some [Value.vStr "Date".data]) none [])
      [[Value.vStr "Date".data, Value.vStr "B".data]] [Value.vStr "Date".data] rfl⟩,
   ⟨by decide,
    header_capture_spec.2.2 [[Value.vStr "Salesperson : A".data]] (by decide)⟩⟩
